import Mathlib

/-!
Formal model of the `express-to-openapi` route analyzer
(`src/express-to-openapi.js`, first implementation in the file).

The analyzer works by lexical pattern matching (JavaScript regular
expressions) over the source text of each route handler.  We embed the
handler text as `List Char` and implement each concrete regular
expression used by the source as a dedicated scanner function with the
same semantics (leftmost match, greedy quantifiers, global scans resume
after the end of the previous match, `.` does not match a newline,
`\s` may).  `\s` is modelled by the ASCII whitespace characters that
occur in the inputs we consider (space, tab, newline, carriage return);
`\w` is exactly `[A-Za-z0-9_]`, as in JavaScript.

JavaScript objects and `Map`s are modelled as insertion-ordered
association lists: assignment (`setA`) updates an existing key in place
or appends a new one, exactly like a JS property write / `Map.set`.
-/

/-- JS `\w` character class: `[A-Za-z0-9_]`. -/
def isWordChar (c : Char) : Bool := c.isAlpha || c.isDigit || c = '_'

/-- JS `\s` (restricted to the ASCII whitespace that appears in inputs). -/
def isWs (c : Char) : Bool := c = ' ' || c = '\t' || c = '\n' || c = '\r'

/-- JS `String.prototype.includes`: `needle` occurs as a contiguous substring. -/
def hasSubL (needle : List Char) : List Char → Bool
  | [] => needle.isEmpty
  | c :: rest => needle.isPrefixOf (c :: rest) || hasSubL needle rest

/-- `includes` on strings. -/
def hasSubS (needle hay : String) : Bool := hasSubL needle.toList hay.toList

/-- JS `String.prototype.trim` (ASCII whitespace). -/
def trimL (l : List Char) : List Char :=
  ((l.dropWhile isWs).reverse.dropWhile isWs).reverse

/-- JS `String.prototype.split(",")` on a character list. -/
def splitComma : List Char → List (List Char)
  | [] => [[]]
  | c :: rest =>
    if c = ',' then [] :: splitComma rest
    else
      match splitComma rest with
      | chunk :: chunks => (c :: chunk) :: chunks
      | [] => [[c]]

/-- JS `String.prototype.split("/")` on a character list. -/
def splitSlash : List Char → List (List Char)
  | [] => [[]]
  | c :: rest =>
    if c = '/' then [] :: splitSlash rest
    else
      match splitSlash rest with
      | chunk :: chunks => (c :: chunk) :: chunks
      | [] => [[c]]

/-- Drop a literal prefix, JS-style literal regex fragment. -/
def stripLit (lit : String) (l : List Char) : Option (List Char) :=
  if lit.toList.isPrefixOf l then some (l.drop lit.toList.length) else none

/-- Generic global regex scan: try a match at every position (leftmost
match), and after a successful match resume at the position the match
ended (`lastIndex` semantics).  `fuel` is seeded with the input length
plus one; every step consumes at least one character. -/
def scanAll {α : Type} (tryAt : List Char → Option (α × List Char)) :
    Nat → List Char → List α
  | 0, _ => []
  | _ + 1, [] => []
  | fuel + 1, c :: rest =>
    match tryAt (c :: rest) with
    | some (a, rem) => a :: scanAll tryAt fuel rem
    | none => scanAll tryAt fuel rest

/-- Run a global scan over a whole input. -/
def scanAllStr {α : Type} (tryAt : List Char → Option (α × List Char))
    (l : List Char) : List α :=
  scanAll tryAt (l.length + 1) l

/-- One match attempt of `pat(\w+)` (e.g. `req\.query\.(\w+)`): the
literal `pat` followed by a nonempty word-character run (the capture). -/
def tryPrefixWord (pat : String) (l : List Char) :
    Option (List Char × List Char) :=
  match stripLit pat l with
  | none => none
  | some after =>
    let nm := after.takeWhile isWordChar
    if nm.isEmpty then none else some (nm, after.drop nm.length)

/-- One match attempt of `const\s*\{\s*([^}]+)\s*\}\s*=\s*<target>`.
The returned capture is the raw text between the braces (the source
re-extracts it with `/\{\s*([^}]+)\s*\}/`, splits on `","` and trims
each piece, so only the trimmed split matters downstream). -/
def tryDestructureAt (target : String) (l : List Char) :
    Option (List Char × List Char) :=
  match stripLit "const" l with
  | none => none
  | some l1 =>
    match l1.dropWhile isWs with
    | '{' :: l2 =>
      let inner := l2.takeWhile (fun c => c != '}')
      if inner.isEmpty then none
      else
        match l2.drop inner.length with
        | '}' :: l3 =>
          (match l3.dropWhile isWs with
           | '=' :: l5 =>
             (match stripLit target (l5.dropWhile isWs) with
              | some rem => some (inner, rem)
              | none => none)
           | _ => none)
        | _ => none
    | _ => none

/-- Split a brace capture on `","` and trim each name, as the source does. -/
def destructureNames (inner : List Char) : List String :=
  (splitComma inner).map (fun l => String.mk (trimL l))

/-! Response-call patterns.  The source scans the handler text with six
global regexes, in this order:
1. `res\.status\(\s*(\d+)\s*\)\.json\s*\(\s*([^)]+)\s*\)`
2. `res\.json\s*\(\s*([^)]+)\s*\)`
3. `res\.status\(\s*(\d+)\s*\)\.json\s*\(`
4. `res\.json\s*\(`
5. `res\.status\(\s*(\d+)\s*\)\.send\s*\(`
6. `res\.send\s*\(`
The captured data expression of patterns 1 and 2 is only ever used
after `trim`, so capturing the raw text between the parentheses is
observationally identical. -/

/-- Pattern 1: explicit status and captured data expression. -/
def tryP1 (l : List Char) : Option ((List Char × List Char) × List Char) :=
  match stripLit "res.status(" l with
  | none => none
  | some l1 =>
    let l2 := l1.dropWhile isWs
    let ds := l2.takeWhile Char.isDigit
    if ds.isEmpty then none
    else
      match (l2.drop ds.length).dropWhile isWs with
      | ')' :: l3 =>
        (match stripLit ".json" l3 with
         | none => none
         | some l4 =>
           match l4.dropWhile isWs with
           | '(' :: l5 =>
             let bet := l5.takeWhile (fun c => c != ')')
             if bet.isEmpty then none
             else
               (match l5.drop bet.length with
                | ')' :: rem => some ((ds, bet), rem)
                | _ => none)
           | _ => none)
      | _ => none

/-- Pattern 2: `res.json` with a captured data expression. -/
def tryP2 (l : List Char) : Option (List Char × List Char) :=
  match stripLit "res.json" l with
  | none => none
  | some l1 =>
    match l1.dropWhile isWs with
    | '(' :: l2 =>
      let bet := l2.takeWhile (fun c => c != ')')
      if bet.isEmpty then none
      else
        (match l2.drop bet.length with
         | ')' :: rem => some (bet, rem)
         | _ => none)
    | _ => none

/-- Pattern 3: explicit status, `.json(` with no captured expression. -/
def tryP3 (l : List Char) : Option (List Char × List Char) :=
  match stripLit "res.status(" l with
  | none => none
  | some l1 =>
    let l2 := l1.dropWhile isWs
    let ds := l2.takeWhile Char.isDigit
    if ds.isEmpty then none
    else
      match (l2.drop ds.length).dropWhile isWs with
      | ')' :: l3 =>
        (match stripLit ".json" l3 with
         | none => none
         | some l4 =>
           match l4.dropWhile isWs with
           | '(' :: rem => some (ds, rem)
           | _ => none)
      | _ => none

/-- Pattern 4: bare `res.json(`. -/
def tryP4 (l : List Char) : Option (Unit × List Char) :=
  match stripLit "res.json" l with
  | none => none
  | some l1 =>
    match l1.dropWhile isWs with
    | '(' :: rem => some ((), rem)
    | _ => none

/-- Pattern 5: explicit status with `.send(`. -/
def tryP5 (l : List Char) : Option (List Char × List Char) :=
  match stripLit "res.status(" l with
  | none => none
  | some l1 =>
    let l2 := l1.dropWhile isWs
    let ds := l2.takeWhile Char.isDigit
    if ds.isEmpty then none
    else
      match (l2.drop ds.length).dropWhile isWs with
      | ')' :: l3 =>
        (match stripLit ".send" l3 with
         | none => none
         | some l4 =>
           match l4.dropWhile isWs with
           | '(' :: rem => some (ds, rem)
           | _ => none)
      | _ => none

/-- Pattern 6: bare `res.send(`. -/
def tryP6 (l : List Char) : Option (Unit × List Char) :=
  match stripLit "res.send" l with
  | none => none
  | some l1 =>
    match l1.dropWhile isWs with
    | '(' :: rem => some ((), rem)
    | _ => none

/-- One match attempt of `(\w+):\s*req\.body\.(\w+)` (used by
`inferObjectProperties`); only the first capture (the property name
before the colon) is consumed by the source. -/
def tryPropAssign (l : List Char) : Option (List Char × List Char) :=
  let run := l.takeWhile isWordChar
  if run.isEmpty then none
  else
    match l.drop run.length with
    | ':' :: l1 =>
      (match tryPrefixWord "req.body." (l1.dropWhile isWs) with
       | some (_, rem) => some (run, rem)
       | none => none)
    | _ => none

/-! Error-path patterns.  The source uses three non-global regexes:
`catch.*res\.status\(\s*(\d+)\s*\)`, `catch.*res\.status\(\s*500\s*\)`,
`catch.*res\.status\(\s*400\s*\)`.  `.` does not match a newline, so
the `res.status` part must begin on the same line as the `catch`
keyword (the `\s*` inside the parentheses may still cross lines);
the greedy `.*` makes the first pattern capture the status of the
*last* `res.status(N)` starting on that line. -/

/-- Match `res\.status\(\s*(\d+)\s*\)` at the head of `l`. -/
def tryStatusDigits (l : List Char) : Option (List Char) :=
  match stripLit "res.status(" l with
  | none => none
  | some l1 =>
    let l2 := l1.dropWhile isWs
    let ds := l2.takeWhile Char.isDigit
    if ds.isEmpty then none
    else
      match (l2.drop ds.length).dropWhile isWs with
      | ')' :: _ => some ds
      | _ => none

/-- Match `res\.status\(\s*<lit>\s*\)` at the head of `l`. -/
def tryStatusLit (lit : String) (l : List Char) : Bool :=
  match stripLit "res.status(" l with
  | none => false
  | some l1 =>
    let l2 := l1.dropWhile isWs
    match stripLit lit l2 with
    | none => false
    | some l3 =>
      match l3.dropWhile isWs with
      | ')' :: _ => true
      | _ => false

/-- Search offsets `j, j-1, …, 0` of `tail` for a `res.status(N)` match;
taking the largest offset first realises the greedy `.*`. -/
def findLastStatusOnLine (tail : List Char) : Nat → Option (List Char)
  | 0 => tryStatusDigits tail
  | j + 1 =>
    match tryStatusDigits (tail.drop (j + 1)) with
    | some ds => some ds
    | none => findLastStatusOnLine tail j

/-- Existence version for the literal 500/400 patterns. -/
def existsStatusLitOnLine (lit : String) (tail : List Char) : Nat → Bool
  | 0 => tryStatusLit lit tail
  | j + 1 => tryStatusLit lit (tail.drop (j + 1)) || existsStatusLitOnLine lit tail j

/-- `/catch.*res\.status\(\s*(\d+)\s*\)/.match`: first `catch` whose
line contains a `res.status(N)` start; capture from the last such start
on that line (greedy `.*`). -/
def matchCatchStatusAux : Nat → List Char → Option (List Char)
  | 0, _ => none
  | _ + 1, [] => none
  | fuel + 1, c :: rest =>
    if ("catch".toList).isPrefixOf (c :: rest) then
      let tail := (c :: rest).drop 5
      let lineLen := (tail.takeWhile (fun ch => ch != '\n')).length
      match findLastStatusOnLine tail lineLen with
      | some ds => some ds
      | none => matchCatchStatusAux fuel rest
    else matchCatchStatusAux fuel rest

/-- Run the generic catch/status pattern over the whole handler text. -/
def matchCatchStatus (l : List Char) : Option (List Char) :=
  matchCatchStatusAux (l.length + 1) l

/-- `/catch.*res\.status\(\s*<lit>\s*\)/.test`. -/
def matchCatchLitAux (lit : String) : Nat → List Char → Bool
  | 0, _ => false
  | _ + 1, [] => false
  | fuel + 1, c :: rest =>
    if ("catch".toList).isPrefixOf (c :: rest) then
      let tail := (c :: rest).drop 5
      let lineLen := (tail.takeWhile (fun ch => ch != '\n')).length
      if existsStatusLitOnLine lit tail lineLen then true
      else matchCatchLitAux lit fuel rest
    else matchCatchLitAux lit fuel rest

/-- The `catch.*res\.status\(\s*500\s*\)` pattern. -/
def matchCatch500 (l : List Char) : Bool := matchCatchLitAux "500" (l.length + 1) l

/-- The `catch.*res\.status\(\s*400\s*\)` pattern. -/
def matchCatch400 (l : List Char) : Bool := matchCatchLitAux "400" (l.length + 1) l

/-! Path-parameter scanning: `routePath.match(/:(\w+)/g)` and
`routePath.replace(/:(\w+)/g, "{$1}")`.  Both are implemented as
single-pass state machines over the character list; the state holds the
(reversed) word run read so far after a `:`.  `some []` means "just saw
a colon, no word character yet". -/

/-- All captures of `:(\w+)` in order. -/
def scanGo : List Char → Option (List Char) → List (List Char)
  | [], st =>
    (match st with
     | some acc => if acc.isEmpty then [] else [acc.reverse]
     | none => [])
  | c :: rest, none =>
    if c = ':' then scanGo rest (some []) else scanGo rest none
  | c :: rest, some acc =>
    if isWordChar c then scanGo rest (some (c :: acc))
    else
      (if acc.isEmpty then [] else [acc.reverse]) ++
        (if c = ':' then scanGo rest (some []) else scanGo rest none)

/-- `replace(/:(\w+)/g, "{$1}")` as a state machine. -/
def convGo : List Char → Option (List Char) → List Char
  | [], st =>
    (match st with
     | some acc => if acc.isEmpty then [':'] else '{' :: (acc.reverse ++ ['}'])
     | none => [])
  | c :: rest, none =>
    if c = ':' then convGo rest (some []) else c :: convGo rest none
  | c :: rest, some acc =>
    if isWordChar c then convGo rest (some (c :: acc))
    else
      (if acc.isEmpty then [':'] else '{' :: (acc.reverse ++ ['}'])) ++
        (if c = ':' then convGo rest (some []) else c :: convGo rest none)

/-- `\{[^}]+\}` replaced by its lowercase form (used for the summary). -/
def lowerBraces : Nat → List Char → List Char
  | 0, l => l
  | _ + 1, [] => []
  | fuel + 1, c :: rest =>
    if c = '{' then
      let run := rest.takeWhile (fun ch => ch != '}')
      if run.isEmpty then '{' :: lowerBraces fuel rest
      else
        match rest.drop run.length with
        | '}' :: rem => ('{' :: (run.map Char.toLower ++ ['}'])) ++ lowerBraces fuel rem
        | _ => '{' :: lowerBraces fuel rest
    else c :: lowerBraces fuel rest

/-- JS `toLowerCase` on the ASCII identifiers this tool handles. -/
def lowerStr (s : String) : String := String.mk (s.toList.map Char.toLower)

/-- JS `toUpperCase` on the ASCII identifiers this tool handles. -/
def upperStr (s : String) : String := String.mk (s.toList.map Char.toUpper)

/-! Data model of the analyzer output. -/

/-- A response (or parameter) schema.  The source only ever constructs
three shapes: a primitive `{type: t}` (including the opaque
`{type:"object"}` fallback), `{type:"object", properties}` with
primitive-typed properties, and `{type:"array", items:{type:"object",
properties}}` with primitive-typed properties.  Property values are the
primitive type names. -/
inductive Schema where
  | prim (type : String)
  | object (properties : List (String × String))
  | arrayOfObject (properties : List (String × String))
deriving DecidableEq, Repr

/-- One OpenAPI parameter.  The JS field `in` is a Lean keyword and is
called `inLoc` here. -/
structure Param where
  name : String
  inLoc : String
  required : Bool
  schema : Schema
deriving DecidableEq, Repr

/-- A request body: the JSON schema's `properties` (name, primitive
type) in insertion order, and the `required` list, which the source
omits when empty (hence the `Option`).  The constant outer
`required: true` and the fixed `application/json` content key are not
modelled. -/
structure RequestBody where
  properties : List (String × String)
  requiredProps : Option (List String)
deriving DecidableEq, Repr

/-- One response entry: the description plus the schema stored under
the fixed `content."application/json".schema` key. -/
structure ResponseEntry where
  description : String
  schema : Schema
deriving DecidableEq, Repr

/-- Responses, keyed by the literal status-code string, in insertion
order. -/
abbrev Responses := List (String × ResponseEntry)

/-- The result of `analyzeRouteHandler`. -/
structure Analysis where
  parameters : List Param
  requestBody : Option RequestBody
  responses : Responses
deriving DecidableEq, Repr

/-- One collected route. -/
structure Route where
  path : String
  method : String
  parameters : List Param
  requestBody : Option RequestBody
  responses : Responses
deriving DecidableEq, Repr

/-! Insertion-ordered association lists, the model of JS objects/Maps. -/

/-- JS property write / `Map.set`: update in place or append. -/
def setA {α : Type} (k : String) (v : α) : List (String × α) → List (String × α)
  | [] => [(k, v)]
  | (k', v') :: rest => if k' = k then (k, v) :: rest else (k', v') :: setA k v rest

/-- JS property read. -/
def getA {α : Type} (k : String) : List (String × α) → Option α
  | [] => none
  | (k', v) :: rest => if k' = k then some v else getA k rest

/-! The heuristics of `analyzeRouteHandler`, in source order. -/

/-- A query parameter as pushed by the source: always optional, always
a string. -/
def mkQueryParam (nm : String) : Param :=
  { name := nm, inLoc := "query", required := false, schema := Schema.prim "string" }

/-- Push a query parameter unless one with the same name is present. -/
def addQueryParam (acc : List Param) (nm : String) : List Param :=
  if acc.any (fun p => p.name == nm) then acc else acc ++ [mkQueryParam nm]

/-- Captures of `req\.query\.(\w+)` (resp. `req\.body\.(\w+)`). -/
def prefixWordNames (pat : String) (code : List Char) : List String :=
  (scanAllStr (tryPrefixWord pat) code).map String.mk

/-- All brace captures of the destructuring pattern for `target`. -/
def destructureInners (target : String) (code : List Char) : List (List Char) :=
  scanAllStr (tryDestructureAt target) code

/-- Query-parameter extraction: direct accesses, then destructurings. -/
def queryParamsOf (code : List Char) : List Param :=
  let ps := (prefixWordNames "req.query." code).foldl addQueryParam []
  (destructureInners "req.query" code).foldl
    (fun acc inner => (destructureNames inner).foldl addQueryParam acc) ps

/-- Type inference for a directly accessed body property
(`req.body.prop`), lines 90–106 of the source: substring checks in
fixed order. -/
def inferTypeAccess (prop : String) : String :=
  if hasSubS "id" prop || hasSubS "Id" prop then "string"
  else if hasSubS "completed" prop || hasSubS "active" prop || hasSubS "enabled" prop then
    "boolean"
  else if hasSubS "count" prop || hasSubS "age" prop || hasSubS "price" prop then
    "integer"
  else "string"

/-- Type inference for a destructured body property, lines 151–166 of
the source (no `id` clause). -/
def inferTypeDestructure (prop : String) : String :=
  if hasSubS "completed" prop || hasSubS "active" prop || hasSubS "enabled" prop then
    "boolean"
  else if hasSubS "count" prop || hasSubS "age" prop || hasSubS "price" prop then
    "integer"
  else "string"

/-- The fixed convention set of required body properties. -/
def isRequiredName (p : String) : Bool := p == "title" || p == "name" || p == "email"

/-- The `required` key is spread in only when the list is nonempty. -/
def optRequired (l : List String) : Option (List String) :=
  if l.isEmpty then none else some l

/-- Request body from the direct member-access heuristic: a `Map` from
property to inferred type, then `required` collected while iterating
the map. -/
def mkAccessRB (caps : List String) : RequestBody :=
  let entries := caps.foldl (fun m prop => setA prop (inferTypeAccess prop) m) []
  { properties := entries,
    requiredProps := optRequired ((entries.map Prod.fst).filter isRequiredName) }

/-- Request body from one destructuring match: `required` is collected
from the raw name list (duplicates included), the property map
deduplicates. -/
def mkDestrRB (inner : List Char) : RequestBody :=
  let props := destructureNames inner
  let entries := props.foldl (fun m prop => setA prop (inferTypeDestructure prop) m) []
  { properties := entries,
    requiredProps := optRequired (props.filter isRequiredName) }

/-- Request-body extraction: the member-access heuristic first, then
every destructuring match assigns `analysis.requestBody` in turn
(each overwrites the previous value; a destructuring capture always
yields at least one name, so the `size > 0` guard always passes). -/
def requestBodyOf (code : List Char) : Option RequestBody :=
  let caps := prefixWordNames "req.body." code
  let rb0 := if caps.isEmpty then none else some (mkAccessRB caps)
  (destructureInners "req.body" code).foldl (fun _ inner => some (mkDestrRB inner)) rb0

/-- `getResponseDescription`. -/
def getResponseDescription (statusCode : String) : String :=
  if statusCode = "200" then "Success"
  else if statusCode = "201" then "Created"
  else if statusCode = "204" then "No Content"
  else if statusCode = "400" then "Bad Request"
  else if statusCode = "401" then "Unauthorized"
  else if statusCode = "403" then "Forbidden"
  else if statusCode = "404" then "Not Found"
  else if statusCode = "500" then "Internal Server Error"
  else "Response"

/-- The literal `'Todo deleted'` (single quotes included) checked by
`analyzeResponseSchema`. -/
def todoDeletedLit : List Char := '\'' :: ("Todo deleted".toList ++ ['\''])

/-- `inferObjectProperties(expression, handlerCode)`: the `expression`
argument is accepted but never read by the source. -/
def inferObjectProperties (_expression handlerCode : List Char) :
    List (String × String) :=
  let p0 : List (String × String) := []
  let p1 :=
    if hasSubL "Todo".toList handlerCode || hasSubL "todo".toList handlerCode then
      setA "completed" "boolean" (setA "title" "string" (setA "_id" "string" p0))
    else p0
  let p2 :=
    if hasSubL "User".toList handlerCode || hasSubL "user".toList handlerCode then
      setA "email" "string" (setA "name" "string" (setA "_id" "string" p1))
    else p1
  let caps := (scanAllStr tryPropAssign handlerCode).map String.mk
  let p3 := caps.foldl (fun acc nm => setA nm "string" acc) p2
  if p3.isEmpty then [("_id", "string")] else p3

/-- `analyzeResponseSchema(dataExpression, handlerCode, statusCode)`. -/
def analyzeResponseSchema (dataExpression : Option (List Char))
    (handlerCode : List Char) (statusCode : String) : Schema :=
  match dataExpression with
  | none => Schema.prim "object"
  | some de =>
    let expr := trimL de
    if hasSubL "todos".toList expr || hasSubL "users".toList expr ||
        hasSubL "items".toList expr then
      Schema.arrayOfObject (inferObjectProperties expr handlerCode)
    else if hasSubL "Todo".toList expr || hasSubL "User".toList expr ||
        hasSubL "Item".toList expr then
      Schema.object (inferObjectProperties expr handlerCode)
    else if hasSubL "newTodo".toList expr || hasSubL "updatedTodo".toList expr ||
        hasSubL "deletedTodo".toList expr then
      Schema.object [("_id", "string"), ("title", "string"), ("completed", "boolean")]
    else if hasSubL "\x7b message:".toList expr || hasSubL todoDeletedLit expr then
      Schema.object [("message", "string")]
    else if statusCode = "201" then
      Schema.object [("_id", "string"), ("title", "string"), ("completed", "boolean")]
    else if statusCode = "200" && hasSubL "find()".toList handlerCode then
      Schema.arrayOfObject [("_id", "string"), ("title", "string"), ("completed", "boolean")]
    else Schema.prim "object"

/-- All matches of the six response patterns, in pattern order then
text order: the status-code string and the captured data expression. -/
def respPatternMatches (code : List Char) : List (String × Option (List Char)) :=
  ((scanAllStr tryP1 code).map (fun m => (String.mk m.1, some m.2))) ++
  ((scanAllStr tryP2 code).map (fun e => ("200", some e))) ++
  ((scanAllStr tryP3 code).map (fun d => (String.mk d, none))) ++
  ((scanAllStr tryP4 code).map (fun _ => ("200", (none : Option (List Char))))) ++
  ((scanAllStr tryP5 code).map (fun d => (String.mk d, none))) ++
  ((scanAllStr tryP6 code).map (fun _ => ("200", (none : Option (List Char)))))

/-- First occurrence of a status code wins (`if (!responses[code])`). -/
def responsesAfterPatterns (code : List Char) : Responses :=
  (respPatternMatches code).foldl
    (fun rs m =>
      if (getA m.1 rs).isSome then rs
      else rs ++ [(m.1, { description := getResponseDescription m.1,
                          schema := analyzeResponseSchema m.2 code m.1 })])
    []

/-- The generic `{message: string}` error entry for a status code. -/
def genericErrorEntry (statusCode : String) : ResponseEntry :=
  { description := getResponseDescription statusCode,
    schema := Schema.object [("message", "string")] }

/-- The fallback 500 entry added when a try/catch is present but no
catch pattern matched. -/
def err500Entry : ResponseEntry :=
  { description := "Internal Server Error",
    schema := Schema.object [("message", "string")] }

/-- Insert a response only if the status code is absent. -/
def insertIfAbsent (k : String) (v : ResponseEntry) (rs : Responses) : Responses :=
  if (getA k rs).isSome then rs else rs ++ [(k, v)]

/-- The error-path section (source lines 250–300): only runs when the
handler text contains both `"try"` and `"catch"`.  The three patterns
run in order; note that the 500- and 400-specific patterns have no
capture group, so `errorMatch[1] || "500"` makes both register `"500"`. -/
def errorResponses (code : List Char) (rs : Responses) : Responses :=
  if hasSubL "try".toList code && hasSubL "catch".toList code then
    let m1 := matchCatchStatus code
    let rs1 := match m1 with
      | some ds => insertIfAbsent (String.mk ds) (genericErrorEntry (String.mk ds)) rs
      | none => rs
    let rs2 := if matchCatch500 code then insertIfAbsent "500" (genericErrorEntry "500") rs1
               else rs1
    let rs3 := if matchCatch400 code then insertIfAbsent "500" (genericErrorEntry "500") rs2
               else rs2
    let hasSpecific := m1.isSome || matchCatch500 code || matchCatch400 code
    if !hasSpecific && (getA "500" rs3).isNone then rs3 ++ [("500", err500Entry)]
    else rs3
  else rs

/-- The 404 entry added for `findById`-style handlers. -/
def notFoundEntry : ResponseEntry :=
  { description := "Resource not found",
    schema := Schema.object [("message", "string")] }

/-- The 404 section (source lines 302–325). -/
def notFound404 (code : List Char) (rs : Responses) : Responses :=
  if hasSubL "findById".toList code || hasSubL "findByIdAndUpdate".toList code ||
      hasSubL "findByIdAndDelete".toList code then
    if hasSubL "not found".toList code || hasSubL "404".toList code then
      insertIfAbsent "404" notFoundEntry rs
    else rs
  else rs

/-- The default 200 entry synthesized when nothing matched. -/
def success200Entry : ResponseEntry :=
  { description := "Success", schema := Schema.prim "object" }

/-- Responses accumulated before the final default. -/
def responsesPreDefault (code : List Char) : Responses :=
  notFound404 code (errorResponses code (responsesAfterPatterns code))

/-- Full response analysis, with the final
`if (Object.keys(responses).length === 0)` default. -/
def responsesOf (code : List Char) : Responses :=
  let rs := responsesPreDefault code
  if rs.isEmpty then [("200", success200Entry)] else rs

/-- `analyzeRouteHandler` on the handler's source text. -/
def analyzeRouteHandler (handlerCode : List Char) : Analysis :=
  { parameters := queryParamsOf handlerCode,
    requestBody := requestBodyOf handlerCode,
    responses := responsesOf handlerCode }

/-! Route collection (the `walk.simple` visitors). -/

/-- A call argument, as far as the collector inspects it: a string
literal, another literal, a function-valued expression (function or
arrow, carrying the source text the extractor slices), or anything
else. -/
inductive ArgNode where
  | strLit (value : String)
  | litOther
  | funcExpr (text : String)
  | otherExpr
deriving DecidableEq, Repr

/-- A member-call expression statement `<obj>.<method>(args)`;
`objName`/`methodName` are `none` when the respective AST node has no
`name` (e.g. a computed member). -/
structure CallStmt where
  objName : Option String
  methodName : Option String
  args : List ArgNode
deriving DecidableEq, Repr

/-- The statements the walker reacts to, in visitation order: variable
declarators with a call initializer (`name = callee(...)`), and
expression statements that are member calls. -/
inductive TopStmt where
  | varDecl (name : String) (initCallee : Option String)
  | exprCall (call : CallStmt)
  | otherStmt
deriving DecidableEq, Repr

/-- `extractPathParams`. -/
def extractPathParams (routePath : String) : List Param :=
  (scanGo routePath.toList none).map
    (fun nm => { name := String.mk nm, inLoc := "path", required := true,
                 schema := Schema.prim "string" })

/-- `convertRouteToOpenAPI`. -/
def convertRouteToOpenAPI (routePath : String) : String :=
  String.mk (convGo routePath.toList none)

/-- The HTTP methods the collector accepts. -/
def validMethods : List String :=
  ["get", "post", "put", "patch", "delete", "head", "options"]

/-- Handler text extraction: only function and arrow expressions are
sliced; anything else leaves the handler code empty. -/
def handlerTextOf : ArgNode → List Char
  | ArgNode.funcExpr t => t.toList
  | _ => []

/-- `analyzeRouteHandler` applied to the last argument; the defensive
`if (!handlerFunction)` branch returns the empty analysis. -/
def analyzeHandlerArg : Option ArgNode → Analysis
  | none => { parameters := [], requestBody := none, responses := [] }
  | some a => analyzeRouteHandler (handlerTextOf a)

/-- The route record pushed for an accepted registration. -/
def mkRouteRecord (httpMethod : String) (p : String) (handler : Option ArgNode) : Route :=
  let analysis := analyzeHandlerArg handler
  { path := convertRouteToOpenAPI p,
    method := httpMethod,
    parameters := extractPathParams p ++ analysis.parameters,
    requestBody := analysis.requestBody,
    responses := analysis.responses }

/-- The `ExpressionStatement` visitor for one member call: accepts the
call iff the object is the tracked app or router name, the method is a
valid HTTP verb, there are at least two arguments, the first argument
is a string literal, and the path is not `"*"` and contains no `*`. -/
def isTrackedName (tracked objName : Option String) : Bool :=
  match tracked, objName with
  | some a, some o => a == o
  | _, _ => false

/-- The acceptance decision itself (see the comment above
`isTrackedName`): `appName && obj.name === appName` is false when the
tracked name is unset or the object has no name. -/
def routeOfCall (appName routerName : Option String) (c : CallStmt) : Option Route :=
  if isTrackedName appName c.objName || isTrackedName routerName c.objName then
    match c.methodName with
    | none => none
    | some mname =>
      if lowerStr mname ∈ validMethods ∧ 2 ≤ c.args.length then
        match c.args.head? with
        | some (ArgNode.strLit p) =>
          if p = "*" ∨ '*' ∈ p.toList then none
          else some (mkRouteRecord (lowerStr mname) p c.args.getLast?)
        | _ => none
      else none
  else none

/-- One step of the walk: variable declarators update the tracked app
and router names (last write wins), member-call statements may push a
route. -/
def walkStep (st : Option String × Option String × List Route) (s : TopStmt) :
    Option String × Option String × List Route :=
  match s with
  | TopStmt.varDecl nm callee =>
    let appN := if callee = some "express" then some nm else st.1
    let routerN := if callee = some "Router" then some nm else st.2.1
    (appN, routerN, st.2.2)
  | TopStmt.exprCall c =>
    (match routeOfCall st.1 st.2.1 c with
     | some r => (st.1, st.2.1, st.2.2 ++ [r])
     | none => st)
  | TopStmt.otherStmt => st

/-- `extractRoutesFromExpressApp`, over the statements the walker
visits in source order. -/
def extractRoutesFromExpressApp (prog : List TopStmt) : List Route :=
  (prog.foldl walkStep (none, none, [])).2.2

/-! The specification assembler (`generateOpenAPISpec`). -/

/-- One assembled operation. -/
structure Operation where
  summary : String
  operationId : String
  tags : List String
  parameters : Option (List Param)
  requestBody : Option RequestBody
  responses : Responses
deriving DecidableEq, Repr

/-- The assembled document (fixed metadata plus the paths mapping). -/
structure OpenAPIDoc where
  openapi : String
  title : String
  version : String
  description : String
  paths : List (String × List (String × Operation))
deriving DecidableEq, Repr

/-- `path.replace(/\{[^}]+\}/g, m => m.toLowerCase())`. -/
def operationPathOf (p : String) : String :=
  String.mk (lowerBraces (p.toList.length + 1) p.toList)

/-- `method + path.replace(/[^a-zA-Z0-9]/g, "")`. -/
def operationIdOf (m p : String) : String :=
  m ++ String.mk (p.toList.filter (fun c => c.isAlpha || c.isDigit))

/-- `path.split("/").filter(Boolean)[0]`, else `"default"`. -/
def tagOf (p : String) : String :=
  match (splitSlash p.toList).filter (fun s => !s.isEmpty) with
  | [] => "default"
  | s :: _ => String.mk s

/-- The operation object built for one route. -/
def mkOperation (r : Route) : Operation :=
  { summary := upperStr r.method ++ " " ++ operationPathOf r.path,
    operationId := operationIdOf r.method r.path,
    tags := [tagOf r.path],
    parameters := if r.parameters.isEmpty then none else some r.parameters,
    requestBody := r.requestBody,
    responses := r.responses }

/-- `paths[path][method] = operation` (creating `paths[path]` first). -/
def addRoute (paths : List (String × List (String × Operation))) (r : Route) :
    List (String × List (String × Operation)) :=
  setA r.path (setA r.method (mkOperation r) ((getA r.path paths).getD [])) paths

/-- `generateOpenAPISpec`. -/
def generateOpenAPISpec (routes : List Route) : OpenAPIDoc :=
  { openapi := "3.0.0",
    title := "Express API",
    version := "1.0.0",
    description := "API documentation generated from Express.js application",
    paths := routes.foldl addRoute [] }

/-- Look up the operation at a path/method pair of a document. -/
def lookupOp (doc : OpenAPIDoc) (p m : String) : Option Operation :=
  (getA p doc.paths).bind (fun inner => getA m inner)

/-! Spec-side characterization of paths made of segments, used to state
the path-parameter claim: a path is the `"/"`-join of segments, each of
which is either a `:name` parameter segment (nonempty word-character
name) or a plain segment containing no colon. -/

/-- Classify a segment: `some nm` iff it is `':' :: nm` with `nm` a
nonempty run of word characters. -/
def segParam? (s : List Char) : Option (List Char) :=
  match s with
  | [] => none
  | c :: nm =>
    if c = ':' ∧ nm ≠ [] ∧ (∀ x ∈ nm, isWordChar x = true) then some nm else none

/-- The OpenAPI form of one segment: `{name}` for a parameter segment,
the segment itself otherwise. -/
def convSeg (s : List Char) : List Char :=
  match segParam? s with
  | some nm => '{' :: (nm ++ ['}'])
  | none => s

/-- A well-formed segment: a parameter segment, or colon-free. -/
def SegOK (s : List Char) : Prop :=
  (segParam? s).isSome = true ∨ ∀ c ∈ s, ¬c = ':'

instance (s : List Char) : Decidable (SegOK s) := by
  unfold SegOK; infer_instance

/-- Join segments with `'/'`. -/
def joinSegs : List (List Char) → List Char
  | [] => []
  | [s] => s
  | s :: s2 :: rest => s ++ '/' :: joinSegs (s2 :: rest)

/-! Concrete inputs used by the witnesses and counterexamples. -/

/-- A handler that destructures a single query parameter. -/
def exHandlerQuery : String :=
  "(req, res) => \x7b const \x7bq\x7d = req.query; res.json(q); \x7d"

/-- A handler with a direct body access followed by a body
destructuring. -/
def exHandlerBody : String :=
  "(req, res) => \x7b req.body.foo; const \x7b bar \x7d = req.body; \x7d"

/-- A handler destructuring properties the specification assigns
number/integer/boolean conventions to. -/
def exHandlerTypes : String :=
  "(req, res) => \x7b const \x7b rating, quantity, published \x7d = req.body; \x7d"

/-- A handler with an explicit falsy guard on a body property. -/
def exHandlerGuard : String :=
  "(req, res) => \x7b if (!req.body.userAddress) \x7b return; \x7d \x7d"

/-- A handler whose catch block sets an explicit status on its own
line. -/
def exHandlerCatch : String :=
  "async (req, res) => \x7b try \x7b work(); \x7d catch (err) \x7b\n    res.status(503);\n  \x7d \x7d"

/-- A handler accessing the conventionally required `title` property. -/
def exHandlerTitle : String := "(req, res) => \x7b const t = req.body.title; \x7d"

/-- The request body produced for `exHandlerTitle`. -/
def rbTitle : RequestBody := ⟨[("title", "string")], some ["title"]⟩

/-- A try/catch handler with no status call at all. -/
def exCatchNoStatus : String := "try \x7b \x7d catch (e) \x7b \x7d"

/-- A minimal program with one accepted registration. -/
def prog1 : List TopStmt :=
  [TopStmt.varDecl "app" (some "express"),
   TopStmt.exprCall ⟨some "app", some "get", [ArgNode.strLit "/x", ArgNode.funcExpr ""]⟩]

/-- The route collected from `prog1`. -/
def rEx1 : Route := ⟨"/x", "get", [], none, [("200", success200Entry)]⟩

/-- A program whose only registration is `app.use("*", handler)`. -/
def progD : List TopStmt :=
  [TopStmt.varDecl "app" (some "express"),
   TopStmt.exprCall ⟨some "app", some "use",
     [ArgNode.strLit "*", ArgNode.funcExpr "(req, res) => res.send()"]⟩]

/-- The `app.use("*", handler)` call site itself. -/
def callUse : CallStmt :=
  ⟨some "app", some "use", [ArgNode.strLit "*", ArgNode.funcExpr "(req, res) => res.send()"]⟩

/-- A registration with one path parameter. -/
def call3 : CallStmt :=
  ⟨some "app", some "get", [ArgNode.strLit "/users/:id", ArgNode.funcExpr ""]⟩

/-- The route collected from `call3`. -/
def rEx3 : Route :=
  ⟨"/users/{id}", "get",
   [{ name := "id", inLoc := "path", required := true, schema := Schema.prim "string" }],
   none, [("200", success200Entry)]⟩

/-- The segment decomposition of `"/users/:id"`. -/
def segs3 : List (List Char) := [[], "users".toList, ":id".toList]

/-- A route whose path starts with the `todos` segment. -/
def r8 : Route := ⟨"/todos", "get", [], none, [("200", success200Entry)]⟩

/-- The operation assembled for `r8`. -/
def opTodos : Operation :=
  ⟨"GET /todos", "gettodos", ["todos"], none, none, [("200", success200Entry)]⟩

/-- Two routes sharing the same path and method, with different
responses. -/
def rDupA : Route := ⟨"/x", "get", [], none, [("200", success200Entry)]⟩

/-- The later duplicate of `rDupA`. -/
def rDupB : Route := ⟨"/x", "get", [], none, [("404", notFoundEntry)]⟩

/-! Helper lemmas. -/

/-- Reading back the key just written. -/
theorem getA_setA_self {α : Type} (k : String) (v : α) (l : List (String × α)) :
    getA k (setA k v l) = some v := by
  induction l with
  | nil => simp [setA, getA]
  | cons hd t ih =>
    obtain ⟨k', v'⟩ := hd
    by_cases hk : k' = k
    · simp [setA, hk, getA]
    · simp [setA, hk, getA, ih]

/-- Writing one key leaves the others unchanged. -/
theorem getA_setA_ne {α : Type} {k k' : String} (h : k ≠ k') (v : α)
    (l : List (String × α)) : getA k (setA k' v l) = getA k l := by
  induction l with
  | nil => simp [setA, getA, Ne.symm h]
  | cons hd t ih =>
    obtain ⟨k2, v2⟩ := hd
    by_cases hk : k2 = k'
    · subst hk
      simp [setA, getA, Ne.symm h]
    · by_cases hk2 : k2 = k <;> simp [setA, hk, getA, hk2, ih, h]

/-- The key list after a write. -/
theorem keys_setA {α : Type} (k : String) (v : α) (l : List (String × α)) :
    (setA k v l).map Prod.fst =
      if (getA k l).isSome then l.map Prod.fst else l.map Prod.fst ++ [k] := by
  induction l with
  | nil => simp [setA, getA]
  | cons hd t ih =>
    obtain ⟨k', v'⟩ := hd
    by_cases hk : k' = k
    · subst hk; simp [setA, getA]
    · by_cases hg : (getA k t).isSome <;>
        simp [setA, hk, getA, ih, hg]

/-- Absent keys are exactly the non-members. -/
theorem getA_eq_none_iff {α : Type} (k : String) (l : List (String × α)) :
    getA k l = none ↔ k ∉ l.map Prod.fst := by
  induction l with
  | nil => simp [getA]
  | cons hd t ih =>
    obtain ⟨k', v'⟩ := hd
    by_cases hk : k' = k
    · simp [getA, hk]
    · have hk' : ¬k = k' := fun hh => hk hh.symm
      simp [getA, hk, ih, hk']

/-- Membership in the key list after a write. -/
theorem mem_keys_setA {α : Type} (p k : String) (v : α) (l : List (String × α)) :
    p ∈ (setA k v l).map Prod.fst ↔ p = k ∨ p ∈ l.map Prod.fst := by
  induction l with
  | nil => simp [setA]
  | cons hd t ih =>
    obtain ⟨k', v'⟩ := hd
    by_cases hk : k' = k
    · have hset : setA k v ((k', v') :: t) = (k, v) :: t := by simp [setA, hk]
      rw [hset]
      simp only [List.map_cons, List.mem_cons, hk]
      tauto
    · have hset : setA k v ((k', v') :: t) = (k', v') :: setA k v t := by simp [setA, hk]
      rw [hset]
      simp only [List.map_cons, List.mem_cons, ih]
      tauto

/-- A write preserves distinctness of keys. -/
theorem nodup_keys_setA {α : Type} (k : String) (v : α) (l : List (String × α))
    (h : (l.map Prod.fst).Nodup) : ((setA k v l).map Prod.fst).Nodup := by
  rw [keys_setA]
  by_cases hg : (getA k l).isSome
  · simpa [hg] using h
  · have hk : k ∉ l.map Prod.fst := by
      rw [← getA_eq_none_iff (α := α)]
      exact Option.not_isSome_iff_eq_none.mp hg
    simp only [hg, if_false]
    refine List.Nodup.append h (List.nodup_singleton k) ?_
    intro a ha hb
    rw [List.mem_singleton] at hb
    subst hb
    exact hk ha

/-- A nonempty list has a last element. -/
theorem exists_getLast?_of_ne_nil {α : Type} (l : List α) (h : l ≠ []) :
    ∃ a, l.getLast? = some a := by
  induction l with
  | nil => exact absurd rfl h
  | cons x t ih =>
    cases t with
    | nil => exact ⟨x, rfl⟩
    | cons y t' =>
      rcases ih (by simp) with ⟨a, ha⟩
      exact ⟨a, by rw [List.getLast?_cons_cons]; exact ha⟩

/-- Folding a constant overwrite keeps the last value (if any). -/
theorem foldl_overwrite {α β : Type} (f : α → β) (l : List α) :
    ∀ init : Option β,
      l.foldl (fun _ x => some (f x)) init =
        (match l.getLast? with
         | some x => some (f x)
         | none => init) := by
  induction l with
  | nil => intro init; rfl
  | cons x t ih =>
    intro init
    rw [List.foldl_cons, ih]
    cases t with
    | nil => rfl
    | cons y t' =>
      rw [List.getLast?_cons_cons]
      rcases exists_getLast?_of_ne_nil (y :: t') (by simp) with ⟨a, ha⟩
      rw [ha]

/-- Everything a query-parameter fold adds is a `mkQueryParam`. -/
theorem mem_queryFold (nms : List String) :
    ∀ (init : List Param) (pa : Param), pa ∈ nms.foldl addQueryParam init →
      pa ∈ init ∨ ∃ nm, pa = mkQueryParam nm := by
  induction nms with
  | nil => intro init pa h; exact Or.inl h
  | cons nm nms ih =>
    intro init pa h
    rw [List.foldl_cons] at h
    rcases ih (addQueryParam init nm) pa h with h' | h'
    · unfold addQueryParam at h'
      by_cases hc : init.any (fun p => p.name == nm)
      · rw [if_pos hc] at h'; exact Or.inl h'
      · rw [if_neg hc] at h'
        rcases List.mem_append.mp h' with h'' | h''
        · exact Or.inl h''
        · exact Or.inr ⟨nm, by simpa using h''⟩
    · exact Or.inr h'

/-- Same, through the destructuring matches. -/
theorem mem_innerFold (inners : List (List Char)) :
    ∀ (init : List Param) (pa : Param),
      pa ∈ inners.foldl (fun acc inner => (destructureNames inner).foldl addQueryParam acc) init →
      pa ∈ init ∨ ∃ nm, pa = mkQueryParam nm := by
  induction inners with
  | nil => intro init pa h; exact Or.inl h
  | cons i is ih =>
    intro init pa h
    rw [List.foldl_cons] at h
    rcases ih _ pa h with h' | h'
    · exact mem_queryFold _ _ _ h'
    · exact Or.inr h'

/-- Every extracted query parameter is a `mkQueryParam`. -/
theorem mem_queryParamsOf (code : List Char) (pa : Param)
    (h : pa ∈ queryParamsOf code) : ∃ nm, pa = mkQueryParam nm := by
  unfold queryParamsOf at h
  rcases mem_innerFold _ _ _ h with h' | h'
  · rcases mem_queryFold _ _ _ h' with h'' | h''
    · exact absurd h'' (List.not_mem_nil pa)
    · exact h''
  · exact h'

/-- Handler-analysis parameters are all query parameters. -/
theorem analyzeHandlerArg_params (harg : Option ArgNode) (pa : Param)
    (h : pa ∈ (analyzeHandlerArg harg).parameters) : ∃ nm, pa = mkQueryParam nm := by
  cases harg with
  | none => exact absurd h (by simp [analyzeHandlerArg])
  | some a => exact mem_queryParamsOf _ pa h

/-! Lemmas about the `:(\w+)` scanner and replacer. -/

/-- Unfolding a parameter-segment classification. -/
theorem segParam?_eq_some {s nm : List Char} (h : segParam? s = some nm) :
    s = ':' :: nm ∧ nm ≠ [] ∧ ∀ x ∈ nm, isWordChar x = true := by
  unfold segParam? at h
  split at h
  · exact absurd h (by simp)
  · rename_i c rest
    split at h
    · rename_i hP
      injection h with h
      subst h
      exact ⟨by rw [hP.1], hP.2.1, hP.2.2⟩
    · exact absurd h (by simp)

/-- A non-parameter well-formed segment has no colon. -/
theorem segOK_none_no_colon {s : List Char} (hok : SegOK s)
    (h : segParam? s = none) : ∀ c ∈ s, ¬c = ':' := by
  rcases hok with h' | h'
  · rw [h] at h'; simp at h'
  · exact h'

/-- Scanning a word run extends the pending name. -/
theorem scanGo_wordRun (nm : List Char) :
    ∀ (rest acc : List Char), (∀ c ∈ nm, isWordChar c = true) →
      scanGo (nm ++ rest) (some acc) = scanGo rest (some (nm.reverse ++ acc)) := by
  induction nm with
  | nil => intro rest acc _; simp
  | cons c nm ih =>
    intro rest acc h
    have hc : isWordChar c = true := h c (by simp)
    show scanGo (c :: (nm ++ rest)) (some acc) = _
    rw [scanGo, if_pos hc, ih rest (c :: acc) (fun d hd => h d (by simp [hd]))]
    simp [List.append_assoc]

/-- Scanning a colon-free block in the idle state skips it. -/
theorem scanGo_plain (s : List Char) :
    ∀ rest, (∀ c ∈ s, ¬c = ':') → scanGo (s ++ rest) none = scanGo rest none := by
  induction s with
  | nil => intro rest _; simp
  | cons c s ih =>
    intro rest h
    have hc : ¬c = ':' := h c (by simp)
    show scanGo (c :: (s ++ rest)) none = _
    rw [scanGo, if_neg hc]
    exact ih rest (fun d hd => h d (by simp [hd]))

/-- Replacing over a word run extends the pending name. -/
theorem convGo_wordRun (nm : List Char) :
    ∀ (rest acc : List Char), (∀ c ∈ nm, isWordChar c = true) →
      convGo (nm ++ rest) (some acc) = convGo rest (some (nm.reverse ++ acc)) := by
  induction nm with
  | nil => intro rest acc _; simp
  | cons c nm ih =>
    intro rest acc h
    have hc : isWordChar c = true := h c (by simp)
    show convGo (c :: (nm ++ rest)) (some acc) = _
    rw [convGo, if_pos hc, ih rest (c :: acc) (fun d hd => h d (by simp [hd]))]
    simp [List.append_assoc]

/-- Replacing over a colon-free block copies it. -/
theorem convGo_plain (s : List Char) :
    ∀ rest, (∀ c ∈ s, ¬c = ':') → convGo (s ++ rest) none = s ++ convGo rest none := by
  induction s with
  | nil => intro rest _; simp
  | cons c s ih =>
    intro rest h
    have hc : ¬c = ':' := h c (by simp)
    show convGo (c :: (s ++ rest)) none = _
    rw [convGo, if_neg hc, ih rest (fun d hd => h d (by simp [hd]))]
    rfl

/-- The scanner finds exactly the parameter segments of a joined path. -/
theorem scanGo_joinSegs : ∀ segs : List (List Char),
    (∀ s ∈ segs, SegOK s) →
    scanGo (joinSegs segs) none = segs.filterMap segParam? := by
  intro segs
  induction segs with
  | nil => intro _; simp [joinSegs, scanGo]
  | cons s rest ih =>
    intro h
    have hs : SegOK s := h s (by simp)
    cases rest with
    | nil =>
      show scanGo (joinSegs [s]) none = [s].filterMap segParam?
      cases hp : segParam? s with
      | some nm =>
        obtain ⟨rfl, hne, hword⟩ := segParam?_eq_some hp
        show scanGo (':' :: nm) none = _
        rw [scanGo, if_pos rfl]
        have : scanGo nm (some []) = scanGo ([] : List Char) (some (nm.reverse ++ [])) := by
          have := scanGo_wordRun nm [] [] hword
          simpa using this
        rw [this]
        cases nm with
        | nil => exact absurd rfl hne
        | cons c nm' => simp [scanGo, joinSegs, hp, List.filterMap]
      | none =>
        have hnc := segOK_none_no_colon hs hp
        have : scanGo (s ++ ([] : List Char)) none = scanGo ([] : List Char) none :=
          scanGo_plain s [] hnc
        simp only [List.append_nil] at this
        simp [joinSegs, this, scanGo, hp, List.filterMap]
    | cons s2 rest2 =>
      have hjoin : joinSegs (s :: s2 :: rest2) = s ++ '/' :: joinSegs (s2 :: rest2) := rfl
      have ihr := ih (fun t ht => h t (by simp [ht]))
      cases hp : segParam? s with
      | some nm =>
        obtain ⟨rfl, hne, hword⟩ := segParam?_eq_some hp
        rw [hjoin]
        show scanGo (':' :: (nm ++ '/' :: joinSegs (s2 :: rest2))) none = _
        rw [scanGo, if_pos rfl, scanGo_wordRun nm _ [] hword]
        have hslash : scanGo ('/' :: joinSegs (s2 :: rest2)) (some (nm.reverse ++ [])) =
            [nm.reverse.reverse] ++ scanGo (joinSegs (s2 :: rest2)) none := by
          rw [scanGo]
          have h1 : isWordChar '/' = false := by decide
          have h2 : ¬('/' : Char) = ':' := by decide
          rw [if_neg (by simp [h1]), if_neg h2]
          have hacc : ¬(nm.reverse ++ []).isEmpty = true := by
            cases nm with
            | nil => exact absurd rfl hne
            | cons c nm' => simp
          simp [hacc, hne]
        rw [hslash, ihr]
        simp [List.filterMap_cons, hp]
      | none =>
        have hnc := segOK_none_no_colon hs hp
        rw [hjoin, scanGo_plain s _ hnc]
        rw [scanGo, if_neg (by decide : ¬('/' : Char) = ':')]
        rw [ihr]
        simp [List.filterMap_cons, hp]

/-- The replacer rewrites exactly the parameter segments of a joined
path. -/
theorem convGo_joinSegs : ∀ segs : List (List Char),
    (∀ s ∈ segs, SegOK s) →
    convGo (joinSegs segs) none = joinSegs (segs.map convSeg) := by
  intro segs
  induction segs with
  | nil => intro _; simp [joinSegs, convGo]
  | cons s rest ih =>
    intro h
    have hs : SegOK s := h s (by simp)
    cases rest with
    | nil =>
      show convGo (joinSegs [s]) none = joinSegs [convSeg s]
      cases hp : segParam? s with
      | some nm =>
        obtain ⟨rfl, hne, hword⟩ := segParam?_eq_some hp
        show convGo (':' :: nm) none = _
        rw [convGo, if_pos rfl]
        have : convGo nm (some []) = convGo ([] : List Char) (some (nm.reverse ++ [])) := by
          have := convGo_wordRun nm [] [] hword
          simpa using this
        rw [this]
        cases nm with
        | nil => exact absurd rfl hne
        | cons c nm' => simp [convGo, joinSegs, convSeg, hp]
      | none =>
        have hnc := segOK_none_no_colon hs hp
        have : convGo (s ++ ([] : List Char)) none = s ++ convGo ([] : List Char) none :=
          convGo_plain s [] hnc
        simp only [List.append_nil] at this
        simp [joinSegs, this, convGo, convSeg, hp]
    | cons s2 rest2 =>
      have hjoin : joinSegs (s :: s2 :: rest2) = s ++ '/' :: joinSegs (s2 :: rest2) := rfl
      have ihr := ih (fun t ht => h t (by simp [ht]))
      have hjoin2 : joinSegs ((s :: s2 :: rest2).map convSeg) =
          convSeg s ++ '/' :: joinSegs ((s2 :: rest2).map convSeg) := rfl
      cases hp : segParam? s with
      | some nm =>
        obtain ⟨rfl, hne, hword⟩ := segParam?_eq_some hp
        rw [hjoin, hjoin2]
        show convGo (':' :: (nm ++ '/' :: joinSegs (s2 :: rest2))) none = _
        rw [convGo, if_pos rfl, convGo_wordRun nm _ [] hword]
        have h1 : isWordChar '/' = false := by decide
        have h2 : ¬('/' : Char) = ':' := by decide
        rw [convGo, if_neg (by simp [h1]), if_neg h2]
        have hacc : ¬(nm.reverse ++ []).isEmpty = true := by
          cases nm with
          | nil => exact absurd rfl hne
          | cons c nm' => simp
        simp only [hacc, if_neg, ite_false]
        rw [ihr]
        simp [convSeg, hp]
      | none =>
        have hnc := segOK_none_no_colon hs hp
        rw [hjoin, hjoin2, convGo_plain s _ hnc]
        rw [convGo, if_neg (by decide : ¬('/' : Char) = ':')]
        rw [ihr]
        simp [convSeg, hp]

/-! Inversion of the route-acceptance decision. -/

/-- An accepted call produces exactly the record built from its literal
path and last argument. -/
theorem routeOfCall_some {appN routerN : Option String} {c : CallStmt} {r : Route}
    (h : routeOfCall appN routerN c = some r) :
    ∃ m p, c.methodName = some m ∧ c.args.head? = some (ArgNode.strLit p) ∧
      2 ≤ c.args.length ∧ ¬(p = "*" ∨ '*' ∈ p.toList) ∧
      r = mkRouteRecord (lowerStr m) p c.args.getLast? := by
  unfold routeOfCall at h
  split at h
  · split at h
    · exact absurd h (by simp)
    · rename_i mname hm
      split at h
      · rename_i hcond
        split at h
        · rename_i p hhead
          split at h
          · exact absurd h (by simp)
          · rename_i hw
            injection h with h
            exact ⟨mname, p, hm, hhead, hcond.2, hw, h.symm⟩
        · exact absurd h (by simp)
      · exact absurd h (by simp)
  · exact absurd h (by simp)

/-- Accepted routes have nonempty responses (the 200 default). -/
theorem responsesOf_ne_nil (code : List Char) : responsesOf code ≠ [] := by
  unfold responsesOf
  cases h' : responsesPreDefault code with
  | nil => simp [h']
  | cons a t => simp [h']

/-- Route-level version. -/
theorem routeOfCall_responses_ne_nil {appN routerN : Option String} {c : CallStmt}
    {r : Route} (h : routeOfCall appN routerN c = some r) : r.responses ≠ [] := by
  obtain ⟨m, p, hm, hp, hlen, hw, rfl⟩ := routeOfCall_some h
  have hne : c.args ≠ [] := by
    intro hnil
    rw [hnil] at hlen
    simp at hlen
  obtain ⟨a, ha⟩ := exists_getLast?_of_ne_nil c.args hne
  show (mkRouteRecord (lowerStr m) p c.args.getLast?).responses ≠ []
  rw [ha]
  show (analyzeHandlerArg (some a)).responses ≠ []
  exact responsesOf_ne_nil (handlerTextOf a)

/-- The walk only ever appends routes with nonempty responses. -/
theorem mem_extractRoutes_aux (prog : List TopStmt) :
    ∀ st : Option String × Option String × List Route,
      (∀ r ∈ st.2.2, r.responses ≠ []) →
      ∀ r ∈ (prog.foldl walkStep st).2.2, r.responses ≠ [] := by
  induction prog with
  | nil => intro st h r hr; exact h r hr
  | cons s prog ih =>
    intro st h r hr
    rw [List.foldl_cons] at hr
    refine ih _ ?_ r hr
    intro r' hr'
    cases s with
    | varDecl nm callee => exact h r' (by simpa [walkStep] using hr')
    | exprCall c =>
      simp only [walkStep] at hr'
      cases hc : routeOfCall st.1 st.2.1 c with
      | none => rw [hc] at hr'; exact h r' hr'
      | some rr =>
        rw [hc] at hr'
        rcases List.mem_append.mp hr' with h' | h'
        · exact h r' h'
        · have heq : r' = rr := by simpa using h'
          subst heq
          exact routeOfCall_responses_ne_nil hc
    | otherStmt => exact h r' hr'

/-! Lemmas about the specification assembler. -/

/-- Every operation reachable in the paths accumulator has its tag
derived from its own path key. -/
theorem addRoute_tags_inv (routes : List Route) :
    ∀ paths : List (String × List (String × Operation)),
      (∀ p inner m op, getA p paths = some inner → getA m inner = some op →
        op.tags = [tagOf p]) →
      ∀ p inner m op, getA p (routes.foldl addRoute paths) = some inner →
        getA m inner = some op → op.tags = [tagOf p] := by
  induction routes with
  | nil => intro paths hinv; exact hinv
  | cons r rs ih =>
    intro paths hinv
    rw [List.foldl_cons]
    apply ih
    intro p inner m op hp hm
    unfold addRoute at hp
    by_cases hpr : p = r.path
    · subst hpr
      rw [getA_setA_self] at hp
      injection hp with hp
      subst hp
      by_cases hmr : m = r.method
      · subst hmr
        rw [getA_setA_self] at hm
        injection hm with hm
        subst hm
        rfl
      · rw [getA_setA_ne hmr] at hm
        cases hold : getA r.path paths with
        | none =>
          rw [hold] at hm
          simp [getA] at hm
        | some innerOld =>
          rw [hold] at hm
          simp only [Option.getD_some] at hm
          exact hinv r.path innerOld m op hold hm
    · rw [getA_setA_ne hpr] at hp
      exact hinv p inner m op hp hm

/-- The (path, method) lookup after assembling is the operation of the
last matching route. -/
theorem lookupOp_lastWins (routes : List Route) (p m : String) :
    lookupOp (generateOpenAPISpec routes) p m =
      ((routes.filter (fun r => r.path == p && r.method == m)).getLast?).map mkOperation := by
  induction routes using List.reverseRecOn with
  | nil => simp [generateOpenAPISpec, lookupOp, getA]
  | append_singleton rs r ih =>
    have hfold : (rs ++ [r]).foldl addRoute [] = addRoute (rs.foldl addRoute []) r := by
      rw [List.foldl_append]
      rfl
    unfold lookupOp generateOpenAPISpec at ih ⊢
    simp only [hfold]
    rw [List.filter_append]
    rw [addRoute]
    by_cases hpr : p = r.path
    · subst hpr
      rw [getA_setA_self]
      by_cases hmr : m = r.method
      · subst hmr
        have hsing : [r].filter (fun r' => r'.path == r.path && r'.method == r.method) = [r] := by
          simp
        rw [hsing]
        simp only [Option.some_bind]
        rw [getA_setA_self, List.getLast?_concat]
        rfl
      · have hmr' : ¬r.method = m := fun hh => hmr hh.symm
        have hsing : [r].filter (fun r' => r'.path == r.path && r'.method == m) = [] := by
          simp [hmr']
        rw [hsing, List.append_nil]
        simp only [Option.some_bind]
        rw [getA_setA_ne hmr]
        cases hold : getA r.path (rs.foldl addRoute []) with
        | none =>
          rw [hold] at ih
          simp only [Option.none_bind] at ih
          simpa [getA] using ih
        | some innerOld =>
          rw [hold] at ih
          simp only [Option.some_bind] at ih
          simpa using ih
    · have hpr' : ¬r.path = p := fun hh => hpr hh.symm
      have hsing : [r].filter (fun r' => r'.path == p && r'.method == m) = [] := by
        simp [hpr']
      rw [hsing, List.append_nil, getA_setA_ne hpr]
      exact ih

/-- The assembler never duplicates a path key or a method key. -/
theorem paths_keys_nodup (routes : List Route) :
    ∀ paths : List (String × List (String × Operation)),
      (paths.map Prod.fst).Nodup →
      (∀ p inner, getA p paths = some inner → (inner.map Prod.fst).Nodup) →
      ((routes.foldl addRoute paths).map Prod.fst).Nodup ∧
        ∀ p inner, getA p (routes.foldl addRoute paths) = some inner →
          (inner.map Prod.fst).Nodup := by
  induction routes with
  | nil => intro paths h1 h2; exact ⟨h1, h2⟩
  | cons r rs ih =>
    intro paths h1 h2
    rw [List.foldl_cons]
    apply ih
    · exact nodup_keys_setA _ _ _ h1
    · intro p inner hp
      unfold addRoute at hp
      by_cases hpr : p = r.path
      · subst hpr
        rw [getA_setA_self] at hp
        injection hp with hp
        subst hp
        apply nodup_keys_setA
        cases hold : getA r.path paths with
        | none => simp
        | some i0 => simpa using h2 r.path i0 hold
      · rw [getA_setA_ne hpr] at hp
        exact h2 p inner hp

/-! Lemmas about the request-body heuristics. -/

/-- Membership in the optional `required` list. -/
theorem mem_optRequired (l : List String) (p : String) :
    p ∈ (optRequired l).getD [] ↔ p ∈ l := by
  unfold optRequired
  cases l with
  | nil => simp
  | cons x t => simp

/-- Keys of the property map built from a name list. -/
theorem mem_keys_propFold (f : String → String) (props : List String) :
    ∀ (init : List (String × String)) (p : String),
      p ∈ (props.foldl (fun m prop => setA prop (f prop) m) init).map Prod.fst ↔
        p ∈ props ∨ p ∈ init.map Prod.fst := by
  induction props with
  | nil => intro init p; simp
  | cons q props ih =>
    intro init p
    rw [List.foldl_cons, ih]
    rw [mem_keys_setA]
    constructor
    · rintro (h | h | h)
      · exact Or.inl (by simp [h])
      · exact Or.inl (by simp [h])
      · exact Or.inr h
    · rintro (h | h)
      · rcases List.mem_cons.mp h with h' | h'
        · exact Or.inr (Or.inl h')
        · exact Or.inl h'
      · exact Or.inr (Or.inr h)

/-- The fixed convention set, spelled out. -/
theorem isRequiredName_iff (p : String) :
    isRequiredName p = true ↔ (p = "title" ∨ p = "name" ∨ p = "email") := by
  unfold isRequiredName
  simp [or_assoc]

/-- The access-heuristic request body marks required exactly the fixed
names among its properties. -/
theorem mem_required_mkAccessRB (caps : List String) (p : String) :
    p ∈ (mkAccessRB caps).requiredProps.getD [] ↔
      p ∈ (mkAccessRB caps).properties.map Prod.fst ∧ isRequiredName p = true := by
  unfold mkAccessRB
  simp only []
  rw [mem_optRequired, List.mem_filter]

/-- Likewise for one destructuring match. -/
theorem mem_required_mkDestrRB (inner : List Char) (p : String) :
    p ∈ (mkDestrRB inner).requiredProps.getD [] ↔
      p ∈ (mkDestrRB inner).properties.map Prod.fst ∧ isRequiredName p = true := by
  unfold mkDestrRB
  simp only []
  rw [mem_optRequired, List.mem_filter]
  rw [mem_keys_propFold]
  simp

/-! The claims. -/

/-- C1: for every accepted route registration, the Route's responses
mapping is non-empty; if no response heuristic matched, a default
`"200"` entry with description `"Success"` and an object schema is
synthesized. -/
theorem C1_responses_nonempty :
    (∀ (prog : List TopStmt) (r : Route),
        r ∈ extractRoutesFromExpressApp prog → r.responses ≠ []) ∧
    (∀ code : List Char, responsesPreDefault code = [] →
        responsesOf code = [("200", success200Entry)]) := by
  constructor
  · intro prog r hr
    exact mem_extractRoutes_aux prog (none, none, []) (by intro r' h'; simp at h') r hr
  · intro code h
    unfold responsesOf
    rw [h]
    rfl

/-- C1 witness: the single route of `prog1` has nonempty responses, and
the empty handler text gets the default 200/Success/object entry. -/
theorem C1_witness :
    rEx1.responses ≠ [] ∧ responsesOf [] = [("200", success200Entry)] :=
  ⟨C1_responses_nonempty.1 prog1 rEx1 (by decide),
   C1_responses_nonempty.2 [] (by decide)⟩

/-- C2: a route-registration call site produces no Route whenever it
has fewer than 2 arguments, its first argument is not a string literal,
or its literal path equals `"*"` or contains a `*`; and the program
whose only registration is `app.use("*", handler)` yields zero
routes. -/
theorem C2_rejections :
    (∀ (appN routerN : Option String) (c : CallStmt),
        (c.args.length < 2 ∨
         (∀ p, c.args.head? ≠ some (ArgNode.strLit p)) ∨
         (∃ p, c.args.head? = some (ArgNode.strLit p) ∧ (p = "*" ∨ '*' ∈ p.toList))) →
        routeOfCall appN routerN c = none) ∧
    extractRoutesFromExpressApp progD = [] := by
  constructor
  · intro appN routerN c h
    cases hres : routeOfCall appN routerN c with
    | none => rfl
    | some r =>
      exfalso
      obtain ⟨m, p, hm, hp, hlen, hw, _⟩ := routeOfCall_some hres
      rcases h with h | h | h
      · omega
      · exact h p hp
      · obtain ⟨p', hp', hw'⟩ := h
        rw [hp] at hp'
        injection hp' with hp'
        injection hp' with hp'
        subst hp'
        exact hw hw'
  · decide

/-- C2 witness: the `app.use("*", handler)` call site is rejected via
the wildcard-path condition. -/
theorem C2_witness : routeOfCall (some "app") none callUse = none :=
  C2_rejections.1 (some "app") none callUse
    (Or.inr (Or.inr ⟨"*", rfl, Or.inl rfl⟩))

/-- C3: for every accepted route whose literal path is a `/`-join of
segments that are each either `:name` (nonempty word-character name) or
colon-free, the emitted path replaces each `:name` segment by `{name}`,
and the path parameters are exactly one per parameter segment, with
that name, `required = true`, `in = "path"`, and a string schema. -/
theorem C3_path_params :
    ∀ (appN routerN : Option String) (c : CallStmt) (p : String)
      (segs : List (List Char)) (r : Route),
      routeOfCall appN routerN c = some r →
      c.args.head? = some (ArgNode.strLit p) →
      p.toList = joinSegs segs →
      (∀ s ∈ segs, SegOK s) →
      r.path.toList = joinSegs (segs.map convSeg) ∧
      r.parameters.filter (fun pa => pa.inLoc == "path") =
        (segs.filterMap segParam?).map
          (fun nm => { name := String.mk nm, inLoc := "path", required := true,
                       schema := Schema.prim "string" }) := by
  intro appN routerN c p segs r h hhead hseg hok
  obtain ⟨m, p', hm, hp', hlen, hw, rfl⟩ := routeOfCall_some h
  rw [hhead] at hp'
  injection hp' with hp'
  injection hp' with hp'
  subst hp'
  constructor
  · show (convertRouteToOpenAPI p).toList = _
    unfold convertRouteToOpenAPI
    show convGo p.toList none = _
    rw [hseg]
    exact convGo_joinSegs segs hok
  · show (extractPathParams p ++ (analyzeHandlerArg c.args.getLast?).parameters).filter _ = _
    rw [List.filter_append]
    have h1 : (extractPathParams p).filter (fun pa => pa.inLoc == "path") =
        extractPathParams p := by
      rw [List.filter_eq_self]
      intro pa hpa
      unfold extractPathParams at hpa
      rcases List.mem_map.mp hpa with ⟨nm, _, hnm⟩
      rw [← hnm]
      rfl
    have h2 : ((analyzeHandlerArg c.args.getLast?).parameters).filter
        (fun pa => pa.inLoc == "path") = [] := by
      rw [List.filter_eq_nil_iff]
      intro pa hpa
      rcases analyzeHandlerArg_params _ pa hpa with ⟨nm, rfl⟩
      simp [mkQueryParam]
    rw [h1, h2, List.append_nil]
    unfold extractPathParams
    rw [hseg, scanGo_joinSegs segs hok]

/-- C3 witness: the registration `app.get("/users/:id", handler)`. -/
theorem C3_witness :
    rEx3.path.toList = joinSegs (segs3.map convSeg) ∧
    rEx3.parameters.filter (fun pa => pa.inLoc == "path") =
      (segs3.filterMap segParam?).map
        (fun nm => { name := String.mk nm, inLoc := "path", required := true,
                     schema := Schema.prim "string" }) :=
  C3_path_params (some "app") none call3 "/users/:id" segs3 rEx3
    (by decide) (by decide) (by decide) (by decide)

/-- C4 (amended): the request body is not first-match-wins — every
destructuring match assigns it anew, so the final request body comes
from the last destructuring match when one exists, and only otherwise
from the direct member-access heuristic. -/
theorem C4_last_destructure_wins (code : List Char) :
    requestBodyOf code =
      (match (destructureInners "req.body" code).getLast? with
       | some inner => some (mkDestrRB inner)
       | none =>
         if (prefixWordNames "req.body." code).isEmpty then none
         else some (mkAccessRB (prefixWordNames "req.body." code))) := by
  simp only [requestBodyOf]
  rw [foldl_overwrite mkDestrRB (destructureInners "req.body" code)
    (if (prefixWordNames "req.body." code).isEmpty then none
     else some (mkAccessRB (prefixWordNames "req.body." code)))]
  cases (destructureInners "req.body" code).getLast? <;> rfl

/-- C4 counterexample: in a handler with `req.body.foo` before
`const { bar } = req.body`, the member-access heuristic matches first
and produces the `foo` schema, yet the final request body is the `bar`
schema from the later destructuring match — the claim's
"no overwrite" fails. -/
theorem C4_counterexample :
    (prefixWordNames "req.body." exHandlerBody.toList ≠ [] ∧
      mkAccessRB (prefixWordNames "req.body." exHandlerBody.toList) =
        ⟨[("foo", "string")], none⟩) ∧
    (analyzeRouteHandler exHandlerBody.toList).requestBody =
      some ⟨[("bar", "string")], none⟩ := by decide

/-- C5 (amended): catch-block statuses are found only by single-line
regexes; when none of the three catch patterns matches (in particular
whenever every `res.status` sits on a later line than its `catch`), a
`"500"` entry with the generic message schema is added if and only if
no `"500"` entry exists, and an existing entry is left unchanged. -/
theorem C5_error_fallback (code : List Char) (rs : Responses)
    (h1 : hasSubL "try".toList code = true)
    (h2 : hasSubL "catch".toList code = true)
    (h3 : matchCatchStatus code = none)
    (h4 : matchCatch500 code = false)
    (h5 : matchCatch400 code = false) :
    errorResponses code rs =
      if (getA "500" rs).isNone then rs ++ [("500", err500Entry)] else rs := by
  unfold errorResponses
  rw [h1, h2, h3, h4, h5]
  simp

/-- C5 witness: a try/catch with no status call at all gets the
fallback 500 entry. -/
theorem C5_witness :
    errorResponses exCatchNoStatus.toList [] = [("500", err500Entry)] :=
  (C5_error_fallback exCatchNoStatus.toList []
    (by decide) (by decide) (by decide) (by decide) (by decide)).trans (by decide)

/-- C5 counterexample: the handler contains a try marker, a catch
marker, and an explicit `res.status(503)` inside the catch block (on
its own line), yet no `"503"` response is registered and a `"500"`
entry is added — contradicting "each explicit status(N) call found in
the catch context is registered" and "500 only when no explicit code is
found". -/
theorem C5_counterexample :
    hasSubL "try".toList exHandlerCatch.toList = true ∧
    hasSubL "catch (err) \x7b\n    res.status(503)".toList exHandlerCatch.toList = true ∧
    getA "503" (analyzeRouteHandler exHandlerCatch.toList).responses = none ∧
    getA "500" (analyzeRouteHandler exHandlerCatch.toList).responses =
      some err500Entry := by decide

/-- C6 (amended): type inference is total and deterministic, but by
substring containment rather than exact-name lookup: it never produces
`"number"` (each result is string, boolean or integer), and a name
containing none of the recognized substrings resolves to `"string"`. -/
theorem C6_type_inference (p : String) :
    (inferTypeAccess p = "string" ∨ inferTypeAccess p = "boolean" ∨
      inferTypeAccess p = "integer") ∧
    (inferTypeDestructure p = "string" ∨ inferTypeDestructure p = "boolean" ∨
      inferTypeDestructure p = "integer") ∧
    ((hasSubS "completed" p = false ∧ hasSubS "active" p = false ∧
      hasSubS "enabled" p = false ∧ hasSubS "count" p = false ∧
      hasSubS "age" p = false ∧ hasSubS "price" p = false) →
      inferTypeDestructure p = "string") := by
  refine ⟨?_, ?_, ?_⟩
  · unfold inferTypeAccess
    split
    · exact Or.inl rfl
    · split
      · exact Or.inr (Or.inl rfl)
      · split
        · exact Or.inr (Or.inr rfl)
        · exact Or.inl rfl
  · unfold inferTypeDestructure
    split
    · exact Or.inr (Or.inl rfl)
    · split
      · exact Or.inr (Or.inr rfl)
      · exact Or.inl rfl
  · intro h
    obtain ⟨hc, ha, he, hn, hg, hp⟩ := h
    unfold inferTypeDestructure
    rw [hc, ha, he, hn, hg, hp]
    rfl

/-- C6 witness: an unknown name resolves to string. -/
theorem C6_witness : inferTypeDestructure "flavor" = "string" :=
  (C6_type_inference "flavor").2.2 (by decide)

/-- C6 counterexample: the claim maps `rating` to number, `quantity` to
integer and `published` to boolean; the code maps all three to string
(there is no number type at all). -/
theorem C6_counterexample :
    (analyzeRouteHandler exHandlerTypes.toList).requestBody =
      some ⟨[("rating", "string"), ("quantity", "string"), ("published", "string")], none⟩ ∧
    inferTypeDestructure "rating" = "string" ∧
    inferTypeDestructure "quantity" = "string" ∧
    inferTypeDestructure "published" = "string" ∧
    inferTypeAccess "published" = "string" := by decide

/-- C7: for the handler `const {q} = req.query`, the parameter set is
exactly `{name:"q", in:"query", required:false, schema:string}`; and
every parameter a handler analysis produces is a non-required query
parameter (there is no conventionally-required name). -/
theorem C7_query_param_defaults :
    (analyzeRouteHandler exHandlerQuery.toList).parameters =
      [{ name := "q", inLoc := "query", required := false,
         schema := Schema.prim "string" }] ∧
    (∀ (code : List Char) (pa : Param), pa ∈ (analyzeRouteHandler code).parameters →
      pa.required = false ∧ pa.inLoc = "query") := by
  constructor
  · decide
  · intro code pa h
    obtain ⟨nm, rfl⟩ := mem_queryParamsOf code pa h
    exact ⟨rfl, rfl⟩

/-- C7 witness: instantiated at the `q` parameter of the example
handler. -/
theorem C7_witness :
    (mkQueryParam "q").required = false ∧ (mkQueryParam "q").inLoc = "query" :=
  C7_query_param_defaults.2 exHandlerQuery.toList (mkQueryParam "q") (by decide)

/-- C8 (amended): the tag of every assembled operation is the first
nonempty path segment taken verbatim (or `"default"` when there is
none) — there is no Todos/Users keyword rule and no "Resources"
placeholder rule. -/
theorem C8_tags_first_segment :
    ∀ (routes : List Route) (p m : String) (op : Operation),
      lookupOp (generateOpenAPISpec routes) p m = some op → op.tags = [tagOf p] := by
  intro routes p m op h
  unfold lookupOp generateOpenAPISpec at h
  simp only [] at h
  cases hp : getA p (routes.foldl addRoute []) with
  | none => rw [hp] at h; simp at h
  | some inner =>
    rw [hp] at h
    simp only [Option.some_bind] at h
    exact addRoute_tags_inv routes [] (by intro p' i' m' o' h' _; simp [getA] at h')
      p inner m op hp h

/-- C8 witness: the `/todos` route's operation gets tag
`tagOf "/todos"`. -/
theorem C8_witness : opTodos.tags = [tagOf "/todos"] :=
  C8_tags_first_segment [r8] "/todos" "get" opTodos (by decide)

/-- C8 counterexample: for the path `/todos` the emitted tag is the
verbatim segment `"todos"`, not the literal `"Todos"` the claim
requires. -/
theorem C8_counterexample :
    lookupOp (generateOpenAPISpec [r8]) "/todos" "get" = some opTodos ∧
    opTodos.tags = ["todos"] ∧ ("todos" : String) ≠ "Todos" := by decide

/-- C9 (amended): a request-body property is marked required if and
only if it is one of the fixed names `title`, `name`, `email` (and is a
property of the body) — falsy/undefined/null guards in the handler text
play no role. -/
theorem C9_required_fixed_set :
    ∀ (code : List Char) (rb : RequestBody) (p : String),
      requestBodyOf code = some rb →
      (p ∈ rb.requiredProps.getD [] ↔
        (p ∈ rb.properties.map Prod.fst ∧ (p = "title" ∨ p = "name" ∨ p = "email"))) := by
  intro code rb p h
  unfold requestBodyOf at h
  rw [foldl_overwrite mkDestrRB] at h
  cases hlast : (destructureInners "req.body" code).getLast? with
  | some inner =>
    rw [hlast] at h
    injection h with h
    subst h
    rw [mem_required_mkDestrRB, isRequiredName_iff]
  | none =>
    rw [hlast] at h
    by_cases hcaps : (prefixWordNames "req.body." code).isEmpty
    · rw [if_pos hcaps] at h
      exact absurd h (by simp)
    · rw [if_neg hcaps] at h
      injection h with h
      subst h
      rw [mem_required_mkAccessRB, isRequiredName_iff]

/-- C9 witness: `title` is required in the body of `exHandlerTitle`. -/
theorem C9_witness : "title" ∈ rbTitle.requiredProps.getD [] :=
  (C9_required_fixed_set exHandlerTitle.toList rbTitle "title" (by decide)).mpr
    ⟨by decide, Or.inl rfl⟩

/-- C9 counterexample: the handler guards `req.body.userAddress` with
an explicit falsy check, yet `userAddress` is not marked required (the
`required` key is omitted entirely). -/
theorem C9_counterexample :
    hasSubL "if (!req.body.userAddress)".toList exHandlerGuard.toList = true ∧
    (analyzeRouteHandler exHandlerGuard.toList).requestBody =
      some ⟨[("userAddress", "string")], none⟩ := by decide

/-- C10: the assembled paths mapping never contains a duplicate path or
method key, and the operation stored at a (path, method) pair is the
one derived from the last route with that path and method — later
records overwrite earlier ones. -/
theorem C10_last_wins_no_dup :
    (∀ routes : List Route,
      (((generateOpenAPISpec routes).paths).map Prod.fst).Nodup ∧
      ∀ p inner, getA p (generateOpenAPISpec routes).paths = some inner →
        (inner.map Prod.fst).Nodup) ∧
    (∀ (routes : List Route) (p m : String),
      lookupOp (generateOpenAPISpec routes) p m =
        ((routes.filter (fun r => r.path == p && r.method == m)).getLast?).map
          mkOperation) := by
  constructor
  · intro routes
    exact paths_keys_nodup routes [] (by simp) (by intro p inner h; simp [getA] at h)
  · exact lookupOp_lastWins

/-- C10 witness: two registrations of `GET /x` — the assembled document
holds exactly the later one's operation, under distinct keys. -/
theorem C10_witness :
    lookupOp (generateOpenAPISpec [rDupA, rDupB]) "/x" "get" = some (mkOperation rDupB) ∧
    (([("get", mkOperation rDupB)] : List (String × Operation)).map Prod.fst).Nodup :=
  ⟨(C10_last_wins_no_dup.2 [rDupA, rDupB] "/x" "get").trans (by decide),
   (C10_last_wins_no_dup.1 [rDupA, rDupB]).2 "/x" [("get", mkOperation rDupB)] (by decide)⟩
